import Mathlib

/-!
Shallow embedding of the fq persistent file-backed FIFO queue
(package queue: queue.go, options.go) and proofs about its claims.

Modelling conventions:
* a byte is a `Nat` (payload bytes are `< 256` in Go; none of the proofs
  depend on that bound, so it is not imposed);
* the backing `io.ReadWriteSeeker` file is a `Store`: a byte list plus a
  log of every positioned write `(offset, data)`, oldest first;
* Go `uint32` arithmetic is `Nat` arithmetic reduced `% 2^32` exactly where
  the Go code computes in `uint32`;
* fallible operations return the error next to the post-state (the Go
  methods mutate a `*Queue` in place and return an error value).
-/

deriving instance DecidableEq for Except

set_option maxRecDepth 4096

/-- Modulus of Go `uint32` arithmetic. -/
def u32Mod : Nat := 4294967296

/-- `headerLength` constant from queue.go: the 16-byte file header. -/
def headerLength : Nat := 16

/-- `binary.BigEndian.PutUint32`: the 4 big-endian bytes of a `uint32`. -/
def putUint32 (n : Nat) : List Nat :=
  [n % u32Mod / 2 ^ 24 % 256, n % u32Mod / 2 ^ 16 % 256,
   n % u32Mod / 2 ^ 8 % 256, n % u32Mod % 256]

/-- `binary.BigEndian.Uint32`: decode 4 big-endian bytes (0 past the end). -/
def getUint32 (bs : List Nat) : Nat :=
  bs.getD 0 0 * 2 ^ 24 + bs.getD 1 0 * 2 ^ 16 + bs.getD 2 0 * 2 ^ 8 + bs.getD 3 0

/-- The `fileHeader` struct of queue.go (all fields Go `uint32`). -/
structure fileHeader where
  fileLength   : Nat
  queueSize    : Nat
  headPosition : Nat
  tailPosition : Nat
deriving Repr, DecidableEq

/-- The 16 header bytes built by `Queue.syncHeader` (big-endian fields). -/
def encodeHeader (h : fileHeader) : List Nat :=
  putUint32 h.fileLength ++ putUint32 h.queueSize ++
  putUint32 h.headPosition ++ putUint32 h.tailPosition

/-- Field decoding done by `Queue.readHeader` on the 16 header bytes. -/
def decodeHeader (bs : List Nat) : fileHeader :=
  { fileLength   := getUint32 (bs.take 4)
    queueSize    := getUint32 ((bs.drop 4).take 4)
    headPosition := getUint32 ((bs.drop 8).take 4)
    tailPosition := getUint32 ((bs.drop 12).take 4) }

/-- The backing store: current bytes plus the log of positioned writes. -/
structure Store where
  bytes : List Nat
  log   : List (Nat × List Nat)
deriving Repr, DecidableEq

/-- An empty backing store (a fresh temp file). -/
def emptyStore : Store := { bytes := [], log := [] }

/-- Bytes after a positioned write: seek-past-end zero-fills the gap, the
write overlays and may extend (POSIX file semantics used by the Go code). -/
def writeBytes (bs : List Nat) (off : Nat) (data : List Nat) : List Nat :=
  let padded := bs ++ List.replicate (off - bs.length) 0
  padded.take off ++ data ++ padded.drop (off + data.length)

/-- Positioned write on the store; also records the event in the log. -/
def Store.writeAt (s : Store) (off : Nat) (data : List Nat) : Store :=
  { bytes := writeBytes s.bytes off data, log := s.log ++ [(off, data)] }

/-- Positioned read of `n` bytes into a fresh zeroed buffer, as a single
`File.Read`: `none` models `(0, io.EOF)` (read at or past end of file);
otherwise the filled buffer together with the count actually read (a fresh
Go buffer keeps zeros past that count). -/
def Store.readAt (s : Store) (off n : Nat) : Option (List Nat × Nat) :=
  if n = 0 then some ([], 0)
  else if off < s.bytes.length then
    let taken := min n (s.bytes.length - off)
    some ((s.bytes.drop off).take n ++ List.replicate (n - taken) 0, taken)
  else none

/-- Error values surfaced by the queue (ErrQueueFull, ErrQueueEmpty, the
"element is too large to enqueue" error, and any backing-store I/O error). -/
inductive QueueError where
  | full
  | empty
  | tooLarge
  | ioError
deriving Repr, DecidableEq

/-- The `Queue` struct: backing store, cached header, configured capacity. -/
structure Queue where
  store    : Store
  header   : fileHeader
  capacity : Nat
deriving Repr, DecidableEq

/-- `defaultFileHeader`: `fileHeader{capacity, 0, 16, 16}`. -/
def defaultFileHeader (capacity : Nat) : fileHeader :=
  { fileLength := capacity, queueSize := 0, headPosition := 16, tailPosition := 16 }

/-- `Queue.syncHeader`: write the in-memory header at offset 0. -/
def Queue.syncHeader (q : Queue) : Queue :=
  { q with store := q.store.writeAt 0 (encodeHeader q.header) }

/-- Outcomes of `io.ReadFull` inside `Queue.readHeader`. -/
inductive readHeaderError where
  | eof
  | errUnexpectedEOF
deriving Repr, DecidableEq

/-- `Queue.readHeader`: read 16 bytes at offset 0 with `io.ReadFull`
semantics (no byte: `io.EOF`; 1-15 bytes: `io.ErrUnexpectedEOF`). -/
def readHeader (s : Store) : Except readHeaderError fileHeader :=
  if 16 ≤ s.bytes.length then .ok (decodeHeader (s.bytes.take 16))
  else if s.bytes.length = 0 then .error .eof
  else .error .errUnexpectedEOF

/-- `Queue.init` (as reached from `NewQueue` with a configured capacity):
adopt a persisted full header, or on `io.EOF` install and write the default
header; any other read failure aborts construction. -/
def Queue.init (capacity : Nat) (s : Store) : Except QueueError Queue :=
  match readHeader s with
  | .ok h => .ok { store := s, header := h, capacity := capacity }
  | .error .eof =>
      .ok (Queue.syncHeader { store := s, header := defaultFileHeader capacity, capacity := capacity })
  | .error .errUnexpectedEOF => .error .ioError

/-- `Queue.tailSpaceAvailable` (`uint32` subtraction, hence the `% 2^32`). -/
def Queue.tailSpaceAvailable (q : Queue) : Nat :=
  if q.header.tailPosition < q.header.headPosition then
    (q.header.headPosition + u32Mod - q.header.tailPosition) % u32Mod
  else
    (q.header.fileLength + u32Mod - q.header.tailPosition) % u32Mod

/-- `Queue.headSpaceAvailable` (`uint32` subtraction, hence the `% 2^32`). -/
def Queue.headSpaceAvailable (q : Queue) : Nat :=
  if q.header.tailPosition < q.header.headPosition then
    (q.header.headPosition + u32Mod - q.header.tailPosition) % u32Mod
  else
    (q.header.headPosition + u32Mod - headerLength) % u32Mod

/-- Tail of `Queue.Enqueue` after a write position was chosen: build the
frame (`elem`), write it, bump `tailPosition` and `queueSize`, sync the
header. `bytesNeeded < 4` would make `PutUint32(elem[:4], ...)` panic in
Go; that unreachable branch is modelled as an I/O error. -/
def Queue.enqueueWrite (q : Queue) (v : List Nat) (bytesNeeded writePosition : Nat) :
    Option QueueError × Queue :=
  if bytesNeeded < 4 then (some .ioError, q)
  else
    let elem := putUint32 v.length ++
      (v.take (bytesNeeded - 4) ++ List.replicate (bytesNeeded - 4 - v.length) 0)
    let store1 := q.store.writeAt writePosition elem
    let newHeader := { q.header with
      tailPosition := (q.header.tailPosition + bytesNeeded) % u32Mod
      queueSize := (q.header.queueSize + 1) % u32Mod }
    (none, Queue.syncHeader { q with store := store1, header := newHeader })

/-- `Queue.Enqueue`: size check, then tail-fit at `tailPosition`, else
wrap-fit at offset `headerLength = 16`, else `ErrQueueFull`. -/
def Queue.enqueue (q : Queue) (v : List Nat) : Option QueueError × Queue :=
  let bytesNeeded := (4 + v.length) % u32Mod
  if bytesNeeded > q.header.fileLength then (some .tooLarge, q)
  else if bytesNeeded ≤ q.tailSpaceAvailable then
    q.enqueueWrite v bytesNeeded q.header.tailPosition
  else if bytesNeeded ≤ q.headSpaceAvailable then
    q.enqueueWrite v bytesNeeded headerLength
  else (some .full, q)

/-- `Queue.Dequeue`: read the 4-byte length prefix at `headPosition`, read
the payload, advance `headPosition`, decrement `queueSize`, reset the
header to the default when the queue became empty, sync the header. -/
def Queue.dequeue (q : Queue) : Except QueueError (List Nat) × Queue :=
  if q.header.queueSize = 0 then (.error .empty, q)
  else
    match q.store.readAt q.header.headPosition 4 with
    | none => (.error .ioError, q)
    | some (elementHeader, taken1) =>
      let elementLength := getUint32 elementHeader
      match q.store.readAt (q.header.headPosition + taken1) elementLength with
      | none => (.error .ioError, q)
      | some (elementData, _) =>
        let h1 := { q.header with
          headPosition := (q.header.headPosition + elementLength + 4) % u32Mod
          queueSize := q.header.queueSize - 1 }
        let h2 := if h1.queueSize = 0 then defaultFileHeader q.capacity else h1
        (.ok elementData, Queue.syncHeader { q with header := h2 })

/-- Run a list of enqueues, stopping at the first error. -/
def runEnqueues : Queue → List (List Nat) → Option QueueError × Queue
  | q, [] => (none, q)
  | q, v :: vs =>
    match q.enqueue v with
    | (none, q1) => runEnqueues q1 vs
    | (some e, q1) => (some e, q1)

/-- Run `n` dequeues, collecting results, stopping at the first error. -/
def runDequeues : Queue → Nat → List (List Nat) × Option QueueError × Queue
  | q, 0 => ([], none, q)
  | q, n + 1 =>
    match q.dequeue with
    | (.ok v, q1) =>
      let r := runDequeues q1 n
      (v :: r.1, r.2.1, r.2.2)
    | (.error e, q1) => ([], some e, q1)

/-- The on-disk frame of a payload: 4-byte big-endian length prefix, then
the payload bytes. -/
def frameBytes (v : List Nat) : List Nat := putUint32 v.length ++ v

/-- Concatenated frames of a payload list. -/
def framesList (vs : List (List Nat)) : List Nat := (vs.map frameBytes).flatten

/-- Total on-disk size of the frames of a payload list. -/
def totalSize (vs : List (List Nat)) : Nat := (vs.map (fun v => 4 + v.length)).sum

/-- The queue produced by constructing over an empty store. -/
def initQueue (capacity : Nat) : Queue :=
  { store := emptyStore.writeAt 0 (encodeHeader (defaultFileHeader capacity))
    header := defaultFileHeader capacity
    capacity := capacity }

/-- A 20-byte payload filled with byte `b`. -/
def p20 (b : Nat) : List Nat := List.replicate 20 b

/-- A queue constructed over an empty store with capacity 64. -/
def q64 : Queue := initQueue 64

/-- After enqueuing two 20-byte payloads into `q64` (frames at 16 and 40). -/
def t1 : Queue := (runEnqueues q64 [p20 1, p20 2]).2

/-- After additionally dequeuing the first payload (head moves to 40). -/
def t2 : Queue := (t1.dequeue).2

/-- After additionally enqueuing a third 20-byte payload, which wraps:
its frame is written at offset 16. -/
def t3 : Queue := (runEnqueues t2 [p20 3]).2

/-- `t3` after one more enqueue (the state whose log shows the
out-of-capacity write). -/
def c2final : Queue := (t3.enqueue (p20 4)).2

/-- `t3` after dequeuing the second payload (head reaches `fileLength`). -/
def c4a : Queue := (t3.dequeue).2

/-- `q64` after enqueuing the single byte 97 (ASCII "a"). -/
def c5qa : Queue := (q64.enqueue [97]).2

/-- A fresh engine with configured capacity 4096 attached to `c5qa`'s
store: it adopts the persisted header `{64, 1, 16, 21}`. -/
def c5qb : Queue :=
  { store := c5qa.store, header := decodeHeader (c5qa.store.bytes.take 16), capacity := 4096 }

/-- A wrapped-regime-boundary state used as a witness for claim C3:
header `{fileLength 64, queueSize 2, headPosition 40, tailPosition 64}`. -/
def c3q : Queue :=
  { store := emptyStore
    header := { fileLength := 64, queueSize := 2, headPosition := 40, tailPosition := 64 }
    capacity := 64 }

/-- Invariant tying a queue state to the model "payloads `pre` already
dequeued, payloads `suf` still queued" after an enqueue-then-dequeue run
from a fresh capacity-`cap` queue: the header fields are determined by the
frame sizes, the store holds the header followed by the frames, everything
fits in the capacity, and all queued frame sizes are `uint32` values. -/
structure MidState (cap : Nat) (pre suf : List (List Nat)) (q : Queue) : Prop where
  hdr : q.header = { fileLength := cap, queueSize := suf.length
                     headPosition := 16 + totalSize pre
                     tailPosition := 16 + totalSize pre + totalSize suf }
  cap_eq : q.capacity = cap
  hbytes : q.store.bytes = encodeHeader q.header ++ framesList (pre ++ suf)
  hbound : 16 + totalSize pre + totalSize suf ≤ cap
  hlens : ∀ v ∈ suf, 4 + v.length < u32Mod

/-- A payload of exactly `2^32` bytes: its `uint32` length prefix wraps
to 0. -/
def bigPayload : List Nat := List.replicate u32Mod 0

/- ------------------------------------------------------------------ -/
/- Helper lemmas                                                      -/
/- ------------------------------------------------------------------ -/

theorem putUint32_length (n : Nat) : (putUint32 n).length = 4 := rfl

theorem totalSize_nil : totalSize [] = 0 := rfl

theorem totalSize_cons (v : List Nat) (vs : List (List Nat)) :
    totalSize (v :: vs) = (4 + v.length) + totalSize vs := by
  simp [totalSize]

theorem totalSize_append (xs ys : List (List Nat)) :
    totalSize (xs ++ ys) = totalSize xs + totalSize ys := by
  simp [totalSize]

theorem frameBytes_length (v : List Nat) : (frameBytes v).length = 4 + v.length := by
  simp [frameBytes, putUint32_length]

theorem framesList_nil : framesList [] = [] := rfl

theorem framesList_cons (v : List Nat) (vs : List (List Nat)) :
    framesList (v :: vs) = frameBytes v ++ framesList vs := rfl

theorem framesList_append (xs ys : List (List Nat)) :
    framesList (xs ++ ys) = framesList xs ++ framesList ys := by
  simp [framesList]

theorem framesList_length (vs : List (List Nat)) :
    (framesList vs).length = totalSize vs := by
  induction vs with
  | nil => rfl
  | cons v vs ih => simp [framesList_cons, totalSize_cons, frameBytes_length, ih]

theorem four_mul_length_le_totalSize (vs : List (List Nat)) :
    4 * vs.length ≤ totalSize vs := by
  induction vs with
  | nil => simp [totalSize_nil]
  | cons v vs ih =>
    rw [totalSize_cons, List.length_cons]
    omega

theorem writeBytes_zero (bs data : List Nat) :
    writeBytes bs 0 data = data ++ bs.drop data.length := by
  unfold writeBytes
  simp

theorem encodeHeader_length (h : fileHeader) : (encodeHeader h).length = 16 := rfl

theorem take16_writeBytes_zero (bs : List Nat) (h : fileHeader) :
    (writeBytes bs 0 (encodeHeader h)).take 16 = encodeHeader h := by
  rw [writeBytes_zero]
  have h16 : (16 : Nat) = (encodeHeader h).length := (encodeHeader_length h).symm
  rw [h16, List.take_left]

theorem length_writeBytes_zero (bs : List Nat) (h : fileHeader) :
    16 ≤ (writeBytes bs 0 (encodeHeader h)).length := by
  rw [writeBytes_zero]
  simp [encodeHeader_length]

theorem getUint32_putUint32 (n : Nat) : getUint32 (putUint32 n) = n % u32Mod := by
  show n % u32Mod / 2 ^ 24 % 256 * 2 ^ 24 + n % u32Mod / 2 ^ 16 % 256 * 2 ^ 16 +
      n % u32Mod / 2 ^ 8 % 256 * 2 ^ 8 + n % u32Mod % 256 = n % u32Mod
  simp only [u32Mod]
  omega

theorem decode_encode (h : fileHeader)
    (h1 : h.fileLength < u32Mod) (h2 : h.queueSize < u32Mod)
    (h3 : h.headPosition < u32Mod) (h4 : h.tailPosition < u32Mod) :
    decodeHeader (encodeHeader h) = h := by
  have e : decodeHeader (encodeHeader h) =
      { fileLength := getUint32 (putUint32 h.fileLength)
        queueSize := getUint32 (putUint32 h.queueSize)
        headPosition := getUint32 (putUint32 h.headPosition)
        tailPosition := getUint32 (putUint32 h.tailPosition) } := rfl
  rw [e, getUint32_putUint32, getUint32_putUint32, getUint32_putUint32, getUint32_putUint32,
    Nat.mod_eq_of_lt h1, Nat.mod_eq_of_lt h2, Nat.mod_eq_of_lt h3, Nat.mod_eq_of_lt h4]

theorem mod_sub_eq (a b : Nat) (hb : b ≤ a) (ha : a < u32Mod) :
    (a + u32Mod - b) % u32Mod = a - b := by
  simp only [u32Mod] at *
  omega

theorem enqueueWrite_eq (q : Queue) (v : List Nat) (wp : Nat) :
    q.enqueueWrite v (4 + v.length) wp =
      (none, Queue.syncHeader { q with
        store := q.store.writeAt wp (frameBytes v)
        header := { q.header with
          tailPosition := (q.header.tailPosition + (4 + v.length)) % u32Mod
          queueSize := (q.header.queueSize + 1) % u32Mod } }) := by
  unfold Queue.enqueueWrite
  rw [if_neg (by omega)]
  simp [frameBytes, Nat.add_sub_cancel_left, List.take_length]

theorem enqueueWrite_fst (q : Queue) (v : List Nat) (b wp : Nat) :
    (q.enqueueWrite v b wp).1 = some .ioError ∨ (q.enqueueWrite v b wp).1 = none := by
  unfold Queue.enqueueWrite
  split
  · exact Or.inl rfl
  · exact Or.inr rfl

theorem enqueueWrite_ok (q : Queue) (v : List Nat) (b wp : Nat) (q' : Queue)
    (h : q.enqueueWrite v b wp = (none, q')) :
    ∃ elem, q' = Queue.syncHeader { q with
      store := q.store.writeAt wp elem
      header := { q.header with
        tailPosition := (q.header.tailPosition + b) % u32Mod
        queueSize := (q.header.queueSize + 1) % u32Mod } } := by
  unfold Queue.enqueueWrite at h
  split at h
  · exact absurd (congrArg Prod.fst h) (by simp)
  · exact ⟨_, (congrArg Prod.snd h).symm⟩

theorem enqueue_ok (q : Queue) (v : List Nat) (q' : Queue) (h : q.enqueue v = (none, q')) :
    ∃ wp elem, q' = Queue.syncHeader { q with
      store := q.store.writeAt wp elem
      header := { q.header with
        tailPosition := (q.header.tailPosition + (4 + v.length) % u32Mod) % u32Mod
        queueSize := (q.header.queueSize + 1) % u32Mod } } := by
  unfold Queue.enqueue at h
  dsimp only at h
  split at h
  · exact absurd (congrArg Prod.fst h) (by simp)
  · split at h
    · obtain ⟨elem, he⟩ := enqueueWrite_ok _ _ _ _ _ h
      exact ⟨_, elem, he⟩
    · split at h
      · obtain ⟨elem, he⟩ := enqueueWrite_ok _ _ _ _ _ h
        exact ⟨_, elem, he⟩
      · exact absurd (congrArg Prod.fst h) (by simp)

theorem dequeue_ok (q : Queue) (v : List Nat) (q' : Queue) (h : q.dequeue = (.ok v, q')) :
    ∃ L : Nat, q' = Queue.syncHeader { q with header :=
      if q.header.queueSize - 1 = 0 then defaultFileHeader q.capacity
      else { q.header with
        headPosition := (q.header.headPosition + L + 4) % u32Mod
        queueSize := q.header.queueSize - 1 } } := by
  unfold Queue.dequeue at h
  split at h
  · exact absurd (congrArg Prod.fst h) (by simp)
  · split at h
    · exact absurd (congrArg Prod.fst h) (by simp)
    · dsimp only at h
      split at h
      · exact absurd (congrArg Prod.fst h) (by simp)
      · have hq' := (congrArg Prod.snd h).symm
        dsimp only at hq'
        exact ⟨_, hq'⟩

theorem syncHeader_persist (q1 : Queue)
    (b1 : q1.header.fileLength < u32Mod) (b2 : q1.header.queueSize < u32Mod)
    (b3 : q1.header.headPosition < u32Mod) (b4 : q1.header.tailPosition < u32Mod)
    (c : Nat) :
    q1.syncHeader.store.bytes.take 16 = encodeHeader q1.syncHeader.header ∧
    Queue.init c q1.syncHeader.store =
      .ok { store := q1.syncHeader.store, header := q1.syncHeader.header, capacity := c } := by
  refine ⟨take16_writeBytes_zero _ _, ?_⟩
  unfold Queue.init readHeader
  simp only [Queue.syncHeader, Store.writeAt]
  rw [if_pos (length_writeBytes_zero q1.store.bytes q1.header)]
  rw [take16_writeBytes_zero q1.store.bytes q1.header]
  rw [decode_encode q1.header b1 b2 b3 b4]

/- ------------------------------------------------------------------ -/
/- Claims                                                             -/
/- ------------------------------------------------------------------ -/

/-- Claim C2 (evidence of the code bug): the engine does write past
`fileLength` from a reachable state. With capacity 64, enqueue two 20-byte
payloads, dequeue one, enqueue a third (which wraps to offset 16 but the
code advances `tailPosition` by the frame size instead of setting it to
`16 + frame`, leaving `tailPosition = 88 > 64`): the next enqueue then
succeeds and writes its 24-byte frame at offset 88, beyond
`fileLength = 64`, as the write log shows. -/
theorem C2_capacity_violated :
    (runEnqueues q64 [p20 1, p20 2]).1 = none ∧
    (t1.dequeue).1 = .ok (p20 1) ∧
    (runEnqueues t2 [p20 3]).1 = none ∧
    (t3.enqueue (p20 4)).1 = none ∧
    c2final.header.fileLength = 64 ∧
    c2final.store.log.drop 8 =
      [(88, frameBytes (p20 4)), (0, encodeHeader c2final.header)] := by
  refine ⟨rfl, by decide, rfl, by decide, rfl, by decide⟩

/-- Claim C4 (evidence of the code bug): dequeue does not wrap the read
position. In state `c4a` the queue holds one element whose frame the
producer placed at offset 16, and zero bytes (fewer than 4) remain between
`headPosition = 64` and `fileLength = 64`; the claim says dequeue must set
`headPosition` to 16 and return that frame, but the code reads at offset 64,
hits end-of-file, and fails with an I/O error. -/
theorem C4_read_wrap_missing :
    (t3.dequeue).1 = .ok (p20 2) ∧
    c4a.header = { fileLength := 64, queueSize := 1, headPosition := 64, tailPosition := 88 } ∧
    (c4a.store.bytes.drop 16).take 24 = frameBytes (p20 3) ∧
    (c4a.dequeue).1 = .error .ioError := by
  refine ⟨by decide, by decide, by decide, by decide⟩

/-- Claim C5 (counterexample): the empty-reset does not preserve the
pre-call `fileLength`. A store initialized with capacity 64 holds one
element; a fresh engine configured with capacity 4096 adopts the persisted
header `{64, 1, 16, 21}`; dequeuing the last element resets the header to
the engine's default, whose `fileLength` is 4096, not the pre-call 64. -/
theorem C5_fileLength_not_preserved :
    (q64.enqueue [97]).1 = none ∧
    Queue.init 4096 c5qa.store = .ok c5qb ∧
    c5qb.header = { fileLength := 64, queueSize := 1, headPosition := 16, tailPosition := 21 } ∧
    (c5qb.dequeue).1 = .ok [97] ∧
    (c5qb.dequeue).2.header =
      { fileLength := 4096, queueSize := 0, headPosition := 16, tailPosition := 16 } := by
  refine ⟨rfl, by decide, by decide, by decide, by decide⟩

/-- Claim C5 (amended): a dequeue that removes the last element commits the
default header of the engine's configured capacity — `headPosition = 16`,
`tailPosition = 16`, `queueSize = 0`, and `fileLength` equal to the
configured capacity (which coincides with the pre-call `fileLength`
whenever the engine itself initialized the store); the 16 bytes written at
offset 0 at the commit point encode exactly that header. -/
theorem C5_reset_to_default (q : Queue) (h1 : q.header.queueSize = 1)
    (v : List Nat) (q' : Queue) (h : q.dequeue = (.ok v, q')) :
    q'.header = defaultFileHeader q.capacity ∧
    q'.store.bytes.take 16 = encodeHeader (defaultFileHeader q.capacity) ∧
    q'.store.log = q.store.log ++ [(0, encodeHeader (defaultFileHeader q.capacity))] := by
  unfold Queue.dequeue at h
  rw [if_neg (by omega)] at h
  split at h
  · exact absurd (congrArg Prod.fst h) (by simp)
  · dsimp only at h
    split at h
    · exact absurd (congrArg Prod.fst h) (by simp)
    · simp only [h1, Nat.sub_self, if_pos] at h
      rw [Prod.mk.injEq] at h
      obtain ⟨hv, hq'⟩ := h
      subst hq'
      refine ⟨rfl, ?_, rfl⟩
      exact take16_writeBytes_zero _ _

/-- Witness for the amended claim C5 at the concrete state `c5qb`. -/
theorem C5_reset_to_default_witness :
    (c5qb.dequeue).2.header = defaultFileHeader c5qb.capacity ∧
    (c5qb.dequeue).2.store.bytes.take 16 = encodeHeader (defaultFileHeader c5qb.capacity) ∧
    (c5qb.dequeue).2.store.log =
      c5qb.store.log ++ [(0, encodeHeader (defaultFileHeader c5qb.capacity))] :=
  C5_reset_to_default c5qb (by decide) [97] (c5qb.dequeue).2 (by decide)

/-- Claim C6 (counterexample): with `fileLength = 64`, a 50-byte payload
has frame size `54 > 64 - 16`, so the claim demands the "element too
large" error; the code's check is `54 > 64`, which fails, and the enqueue
is instead rejected with the "queue full" error. -/
theorem C6_threshold_mismatch :
    4 + 50 > 64 - 16 ∧
    q64.header.fileLength = 64 ∧
    (q64.enqueue (List.replicate 50 0)).1 = some .full ∧
    (q64.enqueue (List.replicate 50 0)).1 ≠ some .tooLarge := by
  refine ⟨by omega, rfl, by decide, by decide⟩

/-- Claim C6 (amended): enqueue returns the "element too large" error
exactly when the `uint32` frame size `4 + len(v)` exceeds `fileLength`
itself (not `fileLength - 16`), and in that case it returns with the
in-memory header and the backing store untouched. Frame sizes in
`(fileLength - 16, fileLength]` are rejected with "queue full" instead. -/
theorem C6_tooLarge_iff (q : Queue) (v : List Nat) :
    ((q.enqueue v).1 = some .tooLarge ↔ (4 + v.length) % u32Mod > q.header.fileLength) ∧
    ((4 + v.length) % u32Mod > q.header.fileLength → q.enqueue v = (some .tooLarge, q)) := by
  constructor
  · constructor
    · intro h
      by_contra hc
      unfold Queue.enqueue at h
      rw [if_neg hc] at h
      split at h
      · rcases enqueueWrite_fst q v ((4 + v.length) % u32Mod) q.header.tailPosition with h2 | h2 <;>
          rw [h] at h2 <;> exact absurd h2 (by decide)
      · split at h
        · rcases enqueueWrite_fst q v ((4 + v.length) % u32Mod) headerLength with h2 | h2 <;>
            rw [h] at h2 <;> exact absurd h2 (by decide)
        · exact absurd h (by simp)
    · intro h
      unfold Queue.enqueue
      rw [if_pos h]
  · intro h
    unfold Queue.enqueue
    rw [if_pos h]

/-- Witness for the amended claim C6: a 70-byte payload against capacity 64
is rejected as too large with the state unchanged. -/
theorem C6_tooLarge_iff_witness :
    (4 + (List.replicate 70 0).length) % u32Mod > q64.header.fileLength ∧
    q64.enqueue (List.replicate 70 0) = (some .tooLarge, q64) :=
  ⟨by decide, (C6_tooLarge_iff q64 (List.replicate 70 0)).2 (by decide)⟩

/-- Claim C9: on a store holding a full 16-byte header, construction adopts
the four persisted fields and the configured capacity does not enter the
adopted header; on an empty store, construction installs the default header
`{fileLength = capacity, queueSize = 0, headPosition = 16,
tailPosition = 16}` and writes it at offset 0. -/
theorem C9_init :
    (∀ (capacity : Nat) (s : Store), 16 ≤ s.bytes.length →
      Queue.init capacity s =
        .ok { store := s, header := decodeHeader (s.bytes.take 16), capacity := capacity }) ∧
    (∀ capacity : Nat, Queue.init capacity emptyStore = .ok (initQueue capacity)) := by
  constructor
  · intro capacity s hlen
    unfold Queue.init readHeader
    rw [if_pos hlen]
  · intro capacity
    rfl

/-- Witness for claim C9: reattaching to `q64`'s store with a different
configured capacity (7) adopts the persisted header, and constructing over
the empty store installs the default. -/
theorem C9_init_witness :
    Queue.init 7 q64.store =
      .ok { store := q64.store, header := decodeHeader (q64.store.bytes.take 16), capacity := 7 } ∧
    Queue.init 64 emptyStore = .ok (initQueue 64) :=
  ⟨C9_init.1 7 q64.store (by decide), C9_init.2 64⟩

/-- Claim C3: when the frame does not fit in the tail space but fits in the
head space `headPosition - 16` (non-wrapped regime, valid header bounds),
the frame is written at offset 16 — the start of the data region — and the
enqueue succeeds, committing with the header write. -/
theorem C3_wrap_write (q : Queue) (v : List Nat)
    (hlen : 4 + v.length < u32Mod)
    (hh16 : 16 ≤ q.header.headPosition)
    (hht : q.header.headPosition ≤ q.header.tailPosition)
    (htf : q.header.tailPosition ≤ q.header.fileLength)
    (hfl : q.header.fileLength < u32Mod)
    (hnotail : q.tailSpaceAvailable < 4 + v.length)
    (hhead : 4 + v.length ≤ q.header.headPosition - 16) :
    (q.enqueue v).1 = none ∧
    (q.enqueue v).2.store.log =
      q.store.log ++ [(16, frameBytes v), (0, encodeHeader (q.enqueue v).2.header)] := by
  have hbn : (4 + v.length) % u32Mod = 4 + v.length := Nat.mod_eq_of_lt hlen
  have hhM : q.header.headPosition < u32Mod := by omega
  have hhs : q.headSpaceAvailable = q.header.headPosition - 16 := by
    unfold Queue.headSpaceAvailable headerLength
    rw [if_neg (by omega)]
    exact mod_sub_eq _ _ (by omega) hhM
  unfold Queue.enqueue
  dsimp only
  rw [hbn, if_neg (by omega), if_neg (by omega), hhs, if_pos hhead]
  rw [show headerLength = 16 from rfl]
  rw [enqueueWrite_eq]
  exact ⟨rfl, by simp [Queue.syncHeader, Store.writeAt]⟩

/-- Witness for claim C3 at the concrete state `c3q` (head space exactly
fits the 24-byte frame, tail space is 0). -/
theorem C3_wrap_write_witness :
    (c3q.enqueue (p20 5)).1 = none ∧
    (c3q.enqueue (p20 5)).2.store.log =
      c3q.store.log ++ [(16, frameBytes (p20 5)), (0, encodeHeader (c3q.enqueue (p20 5)).2.header)] :=
  C3_wrap_write c3q (p20 5) (by decide) (by decide) (by decide) (by decide) (by decide)
    (by decide) (by decide)

/-- Claim C7: in the non-wrapped regime (`headPosition ≤ tailPosition`,
valid header bounds) the available tail space is exactly
`fileLength - tailPosition`, and any frame of size at most that is written
at `tailPosition`, the enqueue succeeding. -/
theorem C7_tail_fit (q : Queue) (v : List Nat)
    (hlen : 4 + v.length < u32Mod)
    (hht : q.header.headPosition ≤ q.header.tailPosition)
    (htf : q.header.tailPosition ≤ q.header.fileLength)
    (hfl : q.header.fileLength < u32Mod)
    (hfit : 4 + v.length ≤ q.header.fileLength - q.header.tailPosition) :
    q.tailSpaceAvailable = q.header.fileLength - q.header.tailPosition ∧
    (q.enqueue v).1 = none ∧
    (q.enqueue v).2.store.log =
      q.store.log ++
        [(q.header.tailPosition, frameBytes v), (0, encodeHeader (q.enqueue v).2.header)] := by
  have hbn : (4 + v.length) % u32Mod = 4 + v.length := Nat.mod_eq_of_lt hlen
  have hts : q.tailSpaceAvailable = q.header.fileLength - q.header.tailPosition := by
    unfold Queue.tailSpaceAvailable
    rw [if_neg (by omega)]
    exact mod_sub_eq _ _ htf hfl
  refine ⟨hts, ?_⟩
  unfold Queue.enqueue
  dsimp only
  rw [hbn, if_neg (by omega), hts, if_pos hfit]
  rw [enqueueWrite_eq]
  exact ⟨rfl, by simp [Queue.syncHeader, Store.writeAt]⟩

/-- Witness for claim C7 at the freshly initialized capacity-64 queue with
a 3-byte payload. -/
theorem C7_tail_fit_witness :
    q64.tailSpaceAvailable = q64.header.fileLength - q64.header.tailPosition ∧
    (q64.enqueue [1, 2, 3]).1 = none ∧
    (q64.enqueue [1, 2, 3]).2.store.log =
      q64.store.log ++
        [(q64.header.tailPosition, frameBytes [1, 2, 3]),
         (0, encodeHeader (q64.enqueue [1, 2, 3]).2.header)] :=
  C7_tail_fit q64 [1, 2, 3] (by decide) (by decide) (by decide) (by decide) (by decide)

/-- Claim C8: every successful enqueue performs exactly one payload-region
write followed by the single 16-byte header write at offset 0, and every
successful dequeue performs only that header write; in both cases the
header write is the last store mutation — the sole commit point — and the
header is never written before the payload. -/
theorem C8_commit_ordering :
    (∀ (q : Queue) (v : List Nat) (q' : Queue), q.enqueue v = (none, q') →
      ∃ pos elem, q'.store.log = q.store.log ++ [(pos, elem), (0, encodeHeader q'.header)]) ∧
    (∀ (q : Queue) (v : List Nat) (q' : Queue), q.dequeue = (.ok v, q') →
      q'.store.log = q.store.log ++ [(0, encodeHeader q'.header)]) := by
  constructor
  · intro q v q' h
    obtain ⟨wp, elem, he⟩ := enqueue_ok q v q' h
    subst he
    exact ⟨wp, elem, by simp [Queue.syncHeader, Store.writeAt]⟩
  · intro q v q' h
    obtain ⟨L, he⟩ := dequeue_ok q v q' h
    subst he
    simp [Queue.syncHeader, Store.writeAt]

/-- Witness for claim C8: the first enqueue on the capacity-64 queue and
the first dequeue on `t1`. -/
theorem C8_commit_ordering_witness :
    (∃ pos elem, (q64.enqueue [9]).2.store.log =
      q64.store.log ++ [(pos, elem), (0, encodeHeader (q64.enqueue [9]).2.header)]) ∧
    (t1.dequeue).2.store.log = t1.store.log ++ [(0, encodeHeader (t1.dequeue).2.header)] :=
  ⟨C8_commit_ordering.1 q64 [9] (q64.enqueue [9]).2 (by decide),
   C8_commit_ordering.2 t1 (p20 1) (t1.dequeue).2 (by decide)⟩

/-- Claim C10: after every successful enqueue or dequeue on a queue whose
header fields and capacity are `uint32` values, the 16 bytes at offset 0 of
the backing store are exactly the big-endian encoding of the in-memory
header, and a fresh engine constructed over the store (any configured
capacity) adopts exactly that header. -/
theorem C10_header_persisted (q : Queue)
    (hfl : q.header.fileLength < u32Mod) (hqs : q.header.queueSize < u32Mod)
    (hhp : q.header.headPosition < u32Mod) (htp : q.header.tailPosition < u32Mod)
    (hcap : q.capacity < u32Mod) :
    (∀ (v : List Nat) (q' : Queue) (c : Nat), q.enqueue v = (none, q') →
      q'.store.bytes.take 16 = encodeHeader q'.header ∧
      Queue.init c q'.store = .ok { store := q'.store, header := q'.header, capacity := c }) ∧
    (∀ (v : List Nat) (q' : Queue) (c : Nat), q.dequeue = (.ok v, q') →
      q'.store.bytes.take 16 = encodeHeader q'.header ∧
      Queue.init c q'.store = .ok { store := q'.store, header := q'.header, capacity := c }) := by
  constructor
  · intro v q' c h
    obtain ⟨wp, elem, he⟩ := enqueue_ok q v q' h
    subst he
    refine syncHeader_persist _ ?_ ?_ ?_ ?_ c
    · exact hfl
    · show (q.header.queueSize + 1) % u32Mod < u32Mod
      exact Nat.mod_lt _ (by decide)
    · exact hhp
    · show (q.header.tailPosition + (4 + v.length) % u32Mod) % u32Mod < u32Mod
      exact Nat.mod_lt _ (by decide)
  · intro v q' c h
    obtain ⟨L, he⟩ := dequeue_ok q v q' h
    subst he
    by_cases h0 : q.header.queueSize - 1 = 0
    · rw [if_pos h0]
      refine syncHeader_persist _ ?_ ?_ ?_ ?_ c
      · exact hcap
      · show (0 : Nat) < u32Mod
        decide
      · show (16 : Nat) < u32Mod
        decide
      · show (16 : Nat) < u32Mod
        decide
    · rw [if_neg h0]
      refine syncHeader_persist _ ?_ ?_ ?_ ?_ c
      · exact hfl
      · show q.header.queueSize - 1 < u32Mod
        omega
      · show (q.header.headPosition + L + 4) % u32Mod < u32Mod
        exact Nat.mod_lt _ (by decide)
      · exact htp

/-- Witness for claim C10: the enqueue part at `q64` with a 2-byte payload
and reattachment capacity 4096. -/
theorem C10_header_persisted_witness :
    (q64.enqueue [3, 4]).2.store.bytes.take 16 = encodeHeader (q64.enqueue [3, 4]).2.header ∧
    Queue.init 4096 (q64.enqueue [3, 4]).2.store =
      .ok { store := (q64.enqueue [3, 4]).2.store, header := (q64.enqueue [3, 4]).2.header,
            capacity := 4096 } :=
  (C10_header_persisted q64 (by decide) (by decide) (by decide) (by decide) (by decide)).1
    [3, 4] (q64.enqueue [3, 4]).2 4096 (by decide)

theorem writeBytes_append (bs data : List Nat) : writeBytes bs bs.length data = bs ++ data := by
  unfold writeBytes
  simp

theorem drop_16_enc (h : fileHeader) (rest : List Nat) :
    (encodeHeader h ++ rest).drop 16 = rest := by
  have e : (16 : Nat) = (encodeHeader h).length := rfl
  rw [e, List.drop_left]

theorem readAt_of_prefix (s : Store) (a b : List Nat) (n : Nat)
    (hb : s.bytes = a ++ b) (hn : n ≤ b.length) :
    s.readAt a.length n = some (b.take n, n) := by
  unfold Store.readAt
  by_cases h0 : n = 0
  · subst h0
    simp
  · rw [if_neg h0, if_pos (by rw [hb]; simp; omega)]
    rw [hb, List.drop_left]
    have h1 : (a ++ b).length - a.length = b.length := by simp
    rw [h1, Nat.min_eq_left hn]
    simp

theorem take4_frame (v rest : List Nat) :
    (frameBytes v ++ rest).take 4 = putUint32 v.length := by
  rw [frameBytes, List.append_assoc]
  have e : (4 : Nat) = (putUint32 v.length).length := rfl
  rw [e, List.take_left]

theorem initQueue_mid (cap : Nat) (h16 : 16 ≤ cap) : MidState cap [] [] (initQueue cap) := by
  refine ⟨?_, rfl, ?_, ?_, ?_⟩
  · simp [initQueue, defaultFileHeader, totalSize_nil]
  · show writeBytes [] 0 (encodeHeader (defaultFileHeader cap)) = _
    rw [writeBytes_zero]
    simp [initQueue, framesList_nil]
  · simp [totalSize_nil]
    omega
  · intro v hv
    simp at hv

theorem enqueue_step (cap : Nat) (h16 : 16 ≤ cap) (hcap : cap < u32Mod)
    (done : List (List Nat)) (v : List Nat) (hv : 4 + v.length < u32Mod)
    (q q' : Queue) (hs : MidState cap [] done q) (h : q.enqueue v = (none, q')) :
    MidState cap [] (done ++ [v]) q' := by
  obtain ⟨hdr, capEq, hbytes, hbound, hlens⟩ := hs
  simp only [totalSize_nil, Nat.add_zero, List.nil_append] at hdr hbytes hbound
  have hbn : (4 + v.length) % u32Mod = 4 + v.length := Nat.mod_eq_of_lt hv
  have hT4 : 4 * done.length ≤ totalSize done := four_mul_length_le_totalSize done
  have hts : q.tailSpaceAvailable = cap - (16 + totalSize done) := by
    unfold Queue.tailSpaceAvailable
    rw [hdr]
    dsimp only
    rw [if_neg (by omega)]
    exact mod_sub_eq _ _ (by omega) hcap
  have hhs : q.headSpaceAvailable = 0 := by
    unfold Queue.headSpaceAvailable headerLength
    rw [hdr]
    dsimp only
    rw [if_neg (by omega)]
    simp only [u32Mod]
  unfold Queue.enqueue at h
  dsimp only at h
  rw [hbn, hts, hhs] at h
  simp only [hdr] at h
  split at h
  · exact absurd (congrArg Prod.fst h) (by simp)
  · split at h
    · have hfit : 4 + v.length ≤ cap - (16 + totalSize done) := by assumption
      rw [enqueueWrite_eq] at h
      have hq' := (congrArg Prod.snd h).symm
      subst hq'
      refine ⟨?_, capEq, ?_, ?_, ?_⟩
      · show { q.header with
            tailPosition := (q.header.tailPosition + (4 + v.length)) % u32Mod
            queueSize := (q.header.queueSize + 1) % u32Mod } = _
        rw [hdr]
        dsimp only
        rw [Nat.mod_eq_of_lt (show 16 + totalSize done + (4 + v.length) < u32Mod by omega),
            Nat.mod_eq_of_lt (show done.length + 1 < u32Mod by omega)]
        simp [fileHeader.mk.injEq, totalSize_append, totalSize_cons, totalSize_nil,
          List.length_append]
        all_goals omega
      · simp only [List.nil_append, Queue.syncHeader, Store.writeAt]
        have hlen1 : (16 : Nat) + totalSize done =
            (encodeHeader q.header ++ framesList done).length := by
          simp [encodeHeader_length, framesList_length]
        rw [hbytes, hlen1, writeBytes_append, writeBytes_zero, encodeHeader_length,
          List.append_assoc, drop_16_enc]
        simp [framesList_append, framesList_cons, framesList_nil]
      · simp only [totalSize_nil, Nat.add_zero, totalSize_append, totalSize_cons]
        omega
      · intro x hx
        rcases List.mem_append.mp hx with h1 | h2
        · exact hlens x h1
        · rw [List.mem_singleton.mp h2]
          exact hv
    · split at h
      · exact absurd (show 4 + v.length ≤ 0 from by assumption) (by omega)
      · exact absurd (congrArg Prod.fst h) (by simp)

theorem runEnqueues_mid (cap : Nat) (h16 : 16 ≤ cap) (hcap : cap < u32Mod) :
    ∀ (todo done : List (List Nat)) (q : Queue), MidState cap [] done q →
      (∀ v ∈ todo, 4 + v.length < u32Mod) →
      (runEnqueues q todo).1 = none →
      MidState cap [] (done ++ todo) (runEnqueues q todo).2 := by
  intro todo
  induction todo with
  | nil =>
    intro done q hs _ _
    simpa [runEnqueues] using hs
  | cons v vs ih =>
    intro done q hs hlv hrun
    rcases he : q.enqueue v with ⟨eo, q1⟩
    cases eo with
    | some e =>
      rw [show runEnqueues q (v :: vs) = (some e, q1) from by rw [runEnqueues, he]] at hrun
      exact absurd hrun (by simp)
    | none =>
      have hstep := enqueue_step cap h16 hcap done v (hlv v (by simp)) q q1 hs he
      have hre : runEnqueues q (v :: vs) = runEnqueues q1 vs := by rw [runEnqueues, he]
      rw [hre] at hrun ⊢
      have := ih (done ++ [v]) q1 hstep (fun x hx => hlv x (by simp [hx])) hrun
      simpa [List.append_assoc] using this

theorem dequeue_step_mid (cap : Nat) (hcap : cap < u32Mod)
    (pre suf : List (List Nat)) (v : List Nat) (q : Queue)
    (hs : MidState cap pre (v :: suf) q) :
    (q.dequeue).1 = .ok v ∧ (suf ≠ [] → MidState cap (pre ++ [v]) suf (q.dequeue).2) := by
  obtain ⟨hdr, capEq, hbytes, hbound, hlens⟩ := hs
  have hlv : 4 + v.length < u32Mod := hlens v (by simp)
  have hTc : totalSize (v :: suf) = (4 + v.length) + totalSize suf := totalSize_cons v suf
  have hb2 : q.store.bytes =
      (encodeHeader q.header ++ framesList pre) ++ (frameBytes v ++ framesList suf) := by
    rw [hbytes, framesList_append, framesList_cons]
    simp [List.append_assoc]
  have hoff1 : (encodeHeader q.header ++ framesList pre).length = q.header.headPosition := by
    rw [hdr]
    simp [encodeHeader_length, framesList_length]
  have hread1 : q.store.readAt q.header.headPosition 4 = some (putUint32 v.length, 4) := by
    have h4 : (4 : Nat) ≤ (frameBytes v ++ framesList suf).length := by
      simp [frameBytes_length]
      omega
    have hr := readAt_of_prefix q.store _ _ 4 hb2 h4
    rw [hoff1, take4_frame] at hr
    exact hr
  have hb3 : q.store.bytes =
      ((encodeHeader q.header ++ framesList pre) ++ putUint32 v.length) ++
        (v ++ framesList suf) := by
    rw [hb2, frameBytes]
    simp [List.append_assoc]
  have hoff2 : ((encodeHeader q.header ++ framesList pre) ++ putUint32 v.length).length =
      q.header.headPosition + 4 := by
    rw [List.length_append, hoff1, putUint32_length]
  have hread2 : q.store.readAt (q.header.headPosition + 4) v.length = some (v, v.length) := by
    have hlen2 : v.length ≤ (v ++ framesList suf).length := by simp
    have hr := readAt_of_prefix q.store _ _ v.length hb3 hlen2
    rw [hoff2] at hr
    rw [show (v ++ framesList suf).take v.length = v from List.take_left v (framesList suf)] at hr
    exact hr
  have hqs0 : ¬ q.header.queueSize = 0 := by
    rw [hdr]
    simp
  have hdq : q.dequeue = (.ok v, Queue.syncHeader { q with header :=
      (if q.header.queueSize - 1 = 0 then defaultFileHeader q.capacity
       else { q.header with headPosition := (q.header.headPosition + v.length + 4) % u32Mod, queueSize := q.header.queueSize - 1 }) }) := by
    unfold Queue.dequeue
    rw [if_neg hqs0, hread1]
    dsimp only
    rw [getUint32_putUint32, Nat.mod_eq_of_lt (show v.length < u32Mod by omega)]
    rw [hread2]
  refine ⟨by rw [hdq], ?_⟩
  intro hne
  rw [hdq]
  have hqs1 : q.header.queueSize - 1 = suf.length := by
    rw [hdr]
    simp
  have hif : (if q.header.queueSize - 1 = 0 then defaultFileHeader q.capacity
       else { q.header with headPosition := (q.header.headPosition + v.length + 4) % u32Mod, queueSize := q.header.queueSize - 1 }) =
      { q.header with headPosition := (q.header.headPosition + v.length + 4) % u32Mod, queueSize := q.header.queueSize - 1 } := by
    rw [hqs1]
    exact if_neg (fun h0 => hne (List.length_eq_zero.mp h0))
  rw [hif]
  have hhd : (q.header.headPosition + v.length + 4) % u32Mod =
      16 + totalSize pre + (4 + v.length) := by
    rw [hdr]
    dsimp only
    rw [Nat.mod_eq_of_lt (by omega)]
    omega
  refine ⟨?_, capEq, ?_, ?_, fun x hx => hlens x (List.mem_cons_of_mem v hx)⟩
  · show { q.header with headPosition := (q.header.headPosition + v.length + 4) % u32Mod, queueSize := q.header.queueSize - 1 } = _
    rw [hhd, hqs1, hdr]
    dsimp only
    simp [fileHeader.mk.injEq, totalSize_append, totalSize_cons, totalSize_nil]
    all_goals omega
  · show writeBytes q.store.bytes 0 (encodeHeader _) = _
    rw [writeBytes_zero, encodeHeader_length, hbytes, drop_16_enc]
    have hril : (pre ++ [v]) ++ suf = pre ++ v :: suf := by simp
    rw [hril]
    rfl
  · simp only [totalSize_append, totalSize_cons, totalSize_nil] at hbound ⊢
    omega

theorem runDequeues_mid (cap : Nat) (hcap : cap < u32Mod) :
    ∀ (suf pre : List (List Nat)) (q : Queue), MidState cap pre suf q →
      (runDequeues q suf.length).1 = suf := by
  intro suf
  induction suf with
  | nil =>
    intro pre q _
    rfl
  | cons v vs ih =>
    intro pre q hs
    obtain ⟨hok, hnext⟩ := dequeue_step_mid cap hcap pre vs v q hs
    rcases hdq : q.dequeue with ⟨r, q1⟩
    rw [hdq] at hok hnext
    have hr : r = .ok v := hok
    subst hr
    show (runDequeues q (vs.length + 1)).1 = v :: vs
    rw [runDequeues, hdq]
    cases vs with
    | nil => rfl
    | cons w ws =>
      have hm := hnext (by simp)
      have := ih (pre ++ [v]) q1 hm
      simp only [this]

/-- Claim C1 (amended): starting from a freshly initialized queue of any
`uint32` capacity at least 16, for every sequence of payloads each shorter
than `2^32 - 4` bytes whose enqueues all succeed, running that many
dequeues returns exactly the enqueued payloads in insertion order. -/
theorem C1_fifo (cap : Nat) (h16 : 16 ≤ cap) (hcap : cap < u32Mod)
    (vs : List (List Nat)) (hv : ∀ v ∈ vs, 4 + v.length < u32Mod)
    (hrun : (runEnqueues (initQueue cap) vs).1 = none) :
    (runDequeues ((runEnqueues (initQueue cap) vs).2) vs.length).1 = vs := by
  have hmid := runEnqueues_mid cap h16 hcap vs [] (initQueue cap) (initQueue_mid cap h16) hv hrun
  rw [List.nil_append] at hmid
  exact runDequeues_mid cap hcap vs [] _ hmid

/-- Witness for the amended claim C1: two one-byte payloads round-trip in
order through the capacity-64 queue. -/
theorem C1_fifo_witness :
    (runDequeues ((runEnqueues (initQueue 64) [[1], [2]]).2) 2).1 = [[1], [2]] :=
  C1_fifo 64 (by decide) (by decide) [[1], [2]] (by decide) (by decide)

theorem enqueue_congr (q : Queue) (v w : List Nat)
    (hlen : (4 + v.length) % u32Mod = (4 + w.length) % u32Mod)
    (hput : putUint32 v.length = putUint32 w.length)
    (htail : v.take ((4 + w.length) % u32Mod - 4) ++
        List.replicate ((4 + w.length) % u32Mod - 4 - v.length) 0 =
      w.take ((4 + w.length) % u32Mod - 4) ++
        List.replicate ((4 + w.length) % u32Mod - 4 - w.length) 0) :
    q.enqueue v = q.enqueue w := by
  unfold Queue.enqueue Queue.enqueueWrite
  dsimp only
  rw [hlen, hput, htail]

theorem bigPayload_length : bigPayload.length = u32Mod :=
  List.length_replicate u32Mod 0

theorem enqueue_bigPayload_eq : q64.enqueue bigPayload = q64.enqueue [] := by
  refine enqueue_congr q64 bigPayload [] ?_ ?_ ?_
  · rw [bigPayload_length]
    decide
  · rw [bigPayload_length]
    decide
  · have hk : (4 + ([] : List Nat).length) % u32Mod - 4 = 0 := by decide
    rw [hk, List.take_zero, List.take_zero, Nat.zero_sub, Nat.zero_sub]

/-- Claim C1 (counterexample): a payload of exactly `2^32` bytes defeats
FIFO as originally stated. Its `uint32` frame size `4 + 2^32` wraps to 4
and its `uint32` length prefix wraps to 0, so the enqueue succeeds
(writing an empty frame), and the following dequeue returns the empty
payload instead of the enqueued one. -/
theorem C1_fifo_cex :
    (q64.enqueue bigPayload).1 = none ∧
    ((q64.enqueue bigPayload).2.dequeue).1 = .ok [] ∧
    ([] : List Nat) ≠ bigPayload := by
  refine ⟨by rw [enqueue_bigPayload_eq]; decide, by rw [enqueue_bigPayload_eq]; decide, ?_⟩
  intro hcontra
  have hlen2 := congrArg List.length hcontra
  rw [bigPayload_length] at hlen2
  exact absurd hlen2 (by decide)
